import Mathlib

/-! # Verification of the transaction analytics engine

Shallow embedding of the analytics/override logic of
`src/components/StatisticsTable.tsx` (church-account-bliss): time-range
resolution, department resolution, the filter pipeline, the per-currency
aggregator, and the in-place department override editor.

Modelling conventions:
* Calendar instants are structures of year/month/day/millisecond-of-day;
  `DateTime.key` is a strictly monotone surrogate for `Date.getTime()`
  (monotone in the lexicographic field order for calendar-valid values),
  so all comparisons the code performs through `getTime()` are preserved.
* JS truthiness on optional strings (`a || b`) is modelled by `jsOrOpt`:
  `undefined` and the empty string are falsy, everything else truthy.
* `Array.prototype.sort` is stable (ES2019) and sorts in place; it is
  modelled by `List.insertionSort`, which is stable for the same
  comparator-induced preorder, and the in-place effect is captured by
  `inputAfterFilter`, the state of the caller's array after the pipeline.
* TS `number` amounts are modelled by `Rat`; the aggregator adds in a
  fixed left-to-right order exactly as the code's loop does.
-/

namespace StatsTable

/-- A calendar instant: year, month (1–12), day of month, and milliseconds
within the day.  Day/ms granularity is what the code compares through
`new Date(t.date).getTime()`. -/
structure DateTime where
  year : Int
  month : Nat
  day : Nat
  ms : Nat
deriving DecidableEq

def msPerDay : Nat := 86400000

/-- date-fns `endOfMonth`/`endOfYear` set the time to 23:59:59.999. -/
def endOfDayMs : Nat := 86399999

/-- Monotone surrogate for `Date.getTime()`: strictly increasing in the
lexicographic order of (year, month, day, ms) for calendar-valid fields
(month ≤ 12, day ≤ 31, ms < 86400000), hence order-faithful to epoch
milliseconds on valid dates. -/
def DateTime.key (d : DateTime) : Int :=
  ((d.year * 12 + ((d.month : Int) - 1)) * 31 + ((d.day : Int) - 1)) * (msPerDay : Int)
    + (d.ms : Int)

def isLeapYear (y : Int) : Bool :=
  y % 4 == 0 && (y % 100 != 0 || y % 400 == 0)

def daysInMonth (y : Int) (m : Nat) : Nat :=
  if m = 2 then (if isLeapYear y then 29 else 28)
  else if m = 4 ∨ m = 6 ∨ m = 9 ∨ m = 11 then 30
  else 31

/-- date-fns `startOfMonth`: first day of the month, time 00:00:00.000. -/
def startOfMonth (d : DateTime) : DateTime := ⟨d.year, d.month, 1, 0⟩

/-- date-fns `endOfMonth`: last day of the month, time 23:59:59.999. -/
def endOfMonth (d : DateTime) : DateTime :=
  ⟨d.year, d.month, daysInMonth d.year d.month, endOfDayMs⟩

/-- date-fns `startOfYear`. -/
def startOfYear (d : DateTime) : DateTime := ⟨d.year, 1, 1, 0⟩

/-- date-fns `endOfYear`. -/
def endOfYear (d : DateTime) : DateTime := ⟨d.year, 12, 31, endOfDayMs⟩

/-- date-fns `subMonths d n`: go back `n` months, clamping the day of month
to the length of the target month, preserving the time of day.  Month
arithmetic floors across year boundaries exactly as the JS `Date` setters
do. -/
def subMonths (d : DateTime) (n : Nat) : DateTime :=
  let total : Int := d.year * 12 + ((d.month : Int) - 1) - (n : Int)
  let y := total / 12
  let m := (total % 12).toNat + 1
  ⟨y, m, min d.day (daysInMonth y m), d.ms⟩

/-- `Transaction.type` (`src/types/transaction`): the closed union
`'income' | 'expense'`. -/
inductive TxType where
  | income
  | expense
deriving DecidableEq

/-- The fields of `Transaction` the analytics engine reads.  Payout-specific
fields (issuedTo, decisionNumber, …) are opaque payload and omitted. -/
structure Tx where
  id : String
  type : TxType
  amount : Rat
  currency : String
  category : String
  departmentName : Option String
  date : DateTime
  description : Option String
deriving DecidableEq

/-- JS `String.prototype.trim`: strip leading and trailing whitespace,
modelled on the character list of the string. -/
def trimChars (l : List Char) : List Char :=
  ((l.dropWhile Char.isWhitespace).reverse.dropWhile Char.isWhitespace).reverse

/-- JS `s.trim()`. -/
def jsTrim (s : String) : String := ⟨trimChars s.data⟩

/-- JS `a || b` where `a` is an optional string: `undefined` and `""` are
falsy and fall through to `b`. -/
def jsOrOpt (a b : Option String) : Option String :=
  match a with
  | some s => if s = "" then b else some s
  | none => b

/-- The effective department of a transaction, exactly as computed at
lines 85 and 238:
`tx.departmentName || (getCategoryDepartment ? getCategoryDepartment(tx.category) : undefined)`.
The category lookup is a collaborator returning the category's default
department, `none` for a dangling reference or a category without one. -/
def effDept (tx : Tx) (lookup : String → Option String) : Option String :=
  jsOrOpt tx.departmentName (lookup tx.category)

/-- The `switch (timeRange)` of `filteredTransactions` (lines 49–73).
`none` models the unbounded case (`startDate = endDate = null`): the
`default` arm, reached for `'all'` and for any unrecognized token (the
UI casts an arbitrary string into `TimeRange` at line 136). -/
def resolveRange (timeRange : String) (now : DateTime) : Option (DateTime × DateTime) :=
  if timeRange = "thisMonth" then
    some (startOfMonth now, endOfMonth now)
  else if timeRange = "lastMonth" then
    some (startOfMonth (subMonths now 1), endOfMonth (subMonths now 1))
  else if timeRange = "last3Months" then
    some (startOfMonth (subMonths now 2), endOfMonth now)
  else if timeRange = "last6Months" then
    some (startOfMonth (subMonths now 5), endOfMonth now)
  else if timeRange = "thisYear" then
    some (startOfYear now, endOfYear now)
  else
    none

/-- date-fns `isWithinInterval` (line 78): inclusive on both boundaries.
With no bounds (`none`) every transaction passes. -/
def timePass (range : Option (DateTime × DateTime)) (tx : Tx) : Bool :=
  match range with
  | none => true
  | some (s, e) => decide (s.key ≤ tx.date.key) && decide (tx.date.key ≤ e.key)

/-- The department predicate of lines 84–87:
`const dept = tx.departmentName || getCategoryDepartment(tx.category);
return !!dept && dept === departmentFilter;`. -/
def deptPass (lookup : String → Option String) (filt : String) (tx : Tx) : Bool :=
  match effDept tx lookup with
  | none => false
  | some d => !(d == "") && (d == filt)

/-- Sort relation of the comparator at line 81,
`(a, b) => new Date(b.date).getTime() - new Date(a.date).getTime()`:
date descending. -/
def dateGE (a b : Tx) : Prop := b.date.key ≤ a.date.key

instance : DecidableRel dateGE := fun a b => Int.decLe b.date.key a.date.key

instance : IsTotal Tx dateGE := ⟨fun a b => le_total b.date.key a.date.key⟩

instance : IsTrans Tx dateGE := ⟨fun _ _ _ h1 h2 => le_trans h2 h1⟩

/-- Lines 75–79: the time filter.  When bounds apply, `Array.filter`
builds a new array; when unbounded the input array itself flows on. -/
def timeFiltered (txs : List Tx) (tr : String) (now : DateTime) : List Tx :=
  match resolveRange tr now with
  | some i => txs.filter (timePass (some i))
  | none => txs

/-- Line 81: stable sort by date descending (`Array.prototype.sort` with
the date comparator, modelled by stable insertion sort). -/
def sortedTx (txs : List Tx) : List Tx := txs.insertionSort dateGE

/-- The value returned by the `filteredTransactions` memo (lines 43–91).
The department branch runs only under
`departmentFilter && departmentFilter !== 'all'` — an empty-string filter
is falsy and skips department filtering entirely. -/
def filteredTransactions (txs : List Tx) (tr df : String)
    (lookup : String → Option String) (now : DateTime) : List Tx :=
  if df ≠ "" ∧ df ≠ "all" then
    (sortedTx (timeFiltered txs tr now)).filter (deptPass lookup df)
  else
    sortedTx (timeFiltered txs tr now)

/-- The state of the caller's `transactions` array after the memo body runs.
`Array.prototype.sort` sorts in place: when the range is bounded, line 78's
`filter` produced a fresh array and the input is untouched; when unbounded
(`'all'` or an unrecognized token) line 81 sorts the input array itself. -/
def inputAfterFilter (txs : List Tx) (tr : String) (now : DateTime) : List Tx :=
  match resolveRange tr now with
  | some _ => txs
  | none => sortedTx txs

/-- A per-currency accumulator pair (the `totals` record values). -/
structure Bucket where
  income : Rat
  expense : Rat
deriving DecidableEq

/-- Lines 100–104: add a transaction's amount into its bucket. -/
def bump (b : Bucket) (t : Tx) : Bucket :=
  match t.type with
  | .income => { income := b.income + t.amount, expense := b.expense }
  | .expense => { income := b.income, expense := b.expense + t.amount }

/-- One iteration of the `totals` loop (lines 96–105).  The JS object
`Record<string, {income, expense}>` keyed by currency codes preserves
insertion order of string keys, modelled as an association list. -/
def addTx (m : List (String × Bucket)) (t : Tx) : List (String × Bucket) :=
  if m.any (fun p => p.1 == t.currency) then
    m.map (fun p => if p.1 = t.currency then (p.1, bump p.2 t) else p)
  else
    m ++ [(t.currency, bump ⟨0, 0⟩ t)]

/-- The `totals` memo (lines 93–108), applied to an arbitrary list. -/
def totals (ts : List Tx) : List (String × Bucket) := ts.foldl addTx []

/-- Sum of the amounts of the income transactions of one currency. -/
def sumIncome (ts : List Tx) (c : String) : Rat :=
  ((ts.filter fun t => decide (t.currency = c ∧ t.type = TxType.income)).map Tx.amount).sum

/-- Sum of the amounts of the expense transactions of one currency. -/
def sumExpense (ts : List Tx) (c : String) : Rat :=
  ((ts.filter fun t => decide (t.currency = c ∧ t.type = TxType.expense)).map Tx.amount).sum

/-- The currencies of a list in order of first occurrence (the iteration
order of the JS object built by `totals`). -/
def firstOccurrences (l : List String) : List String :=
  l.foldl (fun acc c => if c ∈ acc then acc else acc ++ [c]) []

/-- One iteration of the `availableDepartments` loop (lines 124–127):
`if (dept && dept.trim()) set.add(dept.trim())`, the JS `Set` keeping
first-insertion order. -/
def collectStep (lookup : String → Option String) (acc : List String) (tx : Tx) :
    List String :=
  match effDept tx lookup with
  | some d =>
      if d ≠ "" ∧ jsTrim d ≠ "" then
        (if jsTrim d ∈ acc then acc else acc ++ [jsTrim d])
      else acc
  | none => acc

/-- The collection pass of `availableDepartments` (lines 122–127). -/
def collectDepts (txs : List Tx) (lookup : String → Option String) : List String :=
  txs.foldl (collectStep lookup) []

/-- `availableDepartments` (lines 122–129): trimmed, deduplicated labels,
sorted ascending (`Array.from(set).sort()`). -/
def availableDepartments (txs : List Tx) (lookup : String → Option String) : List String :=
  (collectDepts txs lookup).insertionSort (fun a b => a ≤ b)

/-- The editor's component-local state (lines 119–121):
`editingId`, `editingDept`, `applyToCategory`. -/
structure EditorState where
  editingId : Option String
  editingDept : String
  applyToCategory : Bool
deriving DecidableEq

/-- The `useState` initial values: `null`, `''`, `false`. -/
def initialEditorState : EditorState := ⟨none, "", false⟩

/-- Draft initialization of line 237:
`transaction.departmentName || (getCategoryDepartment ? … : '') || ''`. -/
def effDeptStr (tx : Tx) (lookup : String → Option String) : String :=
  match effDept tx lookup with
  | some d => d
  | none => ""

/-- The click handler opening the editor (line 237): sets `editingId` and
`editingDept`; `applyToCategory` is left untouched. -/
def startEdit (s : EditorState) (tx : Tx) (lookup : String → Option String) : EditorState :=
  { s with editingId := some tx.id, editingDept := effDeptStr tx lookup }

/-- Typing into the inline input (line 222). -/
def updateDraft (s : EditorState) (text : String) : EditorState :=
  { s with editingDept := text }

/-- The checkbox handler (line 234). -/
def toggleApplyToCategory (s : EditorState) (v : Bool) : EditorState :=
  { s with applyToCategory := v }

/-- Collaborator invocations issued by the editor's handlers. -/
inductive Call where
  | updateTransaction (id : String) (departmentName : Option String)
  | updateCategory (id : String) (name : String) (departmentName : Option String)
deriving DecidableEq

/-- `editingDept.trim() || undefined` (lines 225 and 228): the trimmed
draft, or cleared when it trims to empty. -/
def trimOrNone (s : String) : Option String :=
  if jsTrim s = "" then none else some (jsTrim s)

/-- The check-button handler (lines 223–232), with the collaborators
(`updateTransaction`, `updateCategory`, `getCategoryName`) present.
Returns the next state and the collaborator calls in issue order.  The
handler resets `editingId` and `editingDept` but not `applyToCategory`. -/
def commit (s : EditorState) (tx : Tx) (getCategoryName : String → String) :
    EditorState × List Call :=
  (⟨none, "", s.applyToCategory⟩,
    Call.updateTransaction tx.id (trimOrNone s.editingDept) ::
      (if s.applyToCategory then
        [Call.updateCategory tx.category (getCategoryName tx.category)
          (trimOrNone s.editingDept)]
      else []))

/-- The X-button handler (line 233): resets all three fields and issues no
collaborator call. -/
def cancel (_s : EditorState) : EditorState × List Call :=
  (⟨none, "", false⟩, [])

/-! ## Concrete fixtures used by witnesses and counterexamples -/

/-- A category-department collaborator with no department anywhere
(also models a dangling category reference). -/
def lookNone : String → Option String := fun _ => none

/-- A category-department collaborator returning "Sales" for every id. -/
def lookSales : String → Option String := fun _ => some "Sales"

/-- A `getCategoryName` collaborator returning "Travel" for every id. -/
def catNameTravel : String → String := fun _ => "Travel"

def now0 : DateTime := ⟨2025, 6, 15, 0⟩

def txBlankDept : Tx := ⟨"t1", .income, 100, "PLN", "travel", some " ", ⟨2025, 6, 1, 0⟩, none⟩

def txSalesDept : Tx := ⟨"t2", .income, 100, "PLN", "travel", some "Sales", ⟨2025, 6, 1, 0⟩, none⟩

def txNoDept : Tx := ⟨"t3", .income, 100, "PLN", "travel", none, ⟨2025, 6, 1, 0⟩, none⟩

def txEarly : Tx := ⟨"t4", .income, 1, "PLN", "c", none, ⟨2025, 1, 1, 0⟩, none⟩

def txLate : Tx := ⟨"t5", .expense, 2, "PLN", "c", none, ⟨2025, 2, 1, 0⟩, none⟩

def txPadDept : Tx := ⟨"t6", .income, 100, "PLN", "travel", some " Sales ", ⟨2025, 6, 1, 0⟩, none⟩

def txAtStart : Tx := ⟨"t7", .income, 100, "PLN", "c", none, startOfMonth now0, none⟩

def txPLNin : Tx := ⟨"p1", .income, 100, "PLN", "c", none, now0, none⟩

def txPLNex : Tx := ⟨"p2", .expense, 40, "PLN", "c", none, now0, none⟩

def txUSDin : Tx := ⟨"u1", .income, 5, "USD", "c", none, now0, none⟩

/-- An editor state mid-edit with draft "Sales" and the cascade flag set. -/
def sEdit : EditorState := ⟨some "t3", "Sales", true⟩

/-! ## Helper lemmas -/

theorem mem_sortedTx {l : List Tx} {t : Tx} : t ∈ sortedTx l ↔ t ∈ l := by
  simp [sortedTx, List.mem_insertionSort]

theorem mem_timeFiltered_iff {txs : List Tx} {tr : String} {now : DateTime} {t : Tx} :
    t ∈ timeFiltered txs tr now ↔ t ∈ txs ∧ timePass (resolveRange tr now) t = true := by
  unfold timeFiltered
  cases hr : resolveRange tr now with
  | none => simp [timePass]
  | some i => exact List.mem_filter

theorem mem_filteredTransactions_iff {txs : List Tx} {tr df : String}
    {lookup : String → Option String} {now : DateTime} {t : Tx} :
    t ∈ filteredTransactions txs tr df lookup now ↔
      t ∈ txs ∧ timePass (resolveRange tr now) t = true ∧
        ((df ≠ "" ∧ df ≠ "all") → deptPass lookup df t = true) := by
  unfold filteredTransactions
  by_cases hdf : df ≠ "" ∧ df ≠ "all"
  · rw [if_pos hdf]
    rw [List.mem_filter, mem_sortedTx, mem_timeFiltered_iff]
    constructor
    · rintro ⟨⟨h1, h2⟩, h3⟩
      exact ⟨h1, h2, fun _ => h3⟩
    · rintro ⟨h1, h2, h3⟩
      exact ⟨⟨h1, h2⟩, h3 hdf⟩
  · rw [if_neg hdf]
    rw [mem_sortedTx, mem_timeFiltered_iff]
    constructor
    · rintro ⟨h1, h2⟩
      exact ⟨h1, h2, fun h => absurd h hdf⟩
    · rintro ⟨h1, h2, _⟩
      exact ⟨h1, h2⟩

theorem deptPass_eq_true_iff {lookup : String → Option String} {filt : String} {tx : Tx} :
    deptPass lookup filt tx = true ↔ effDept tx lookup = some filt ∧ filt ≠ "" := by
  unfold deptPass
  cases h : effDept tx lookup with
  | none => simp
  | some d =>
    simp only [Bool.and_eq_true, Bool.not_eq_true', beq_eq_false_iff_ne, beq_iff_eq,
      Option.some.injEq]
    constructor
    · rintro ⟨h1, rfl⟩
      exact ⟨rfl, h1⟩
    · rintro ⟨rfl, h2⟩
      exact ⟨h2, rfl⟩

theorem daysInMonth_pos (y : Int) (m : Nat) : 1 ≤ daysInMonth y m := by
  unfold daysInMonth
  split_ifs <;> omega

theorem key_startOfMonth_le_endOfMonth (d : DateTime) :
    (startOfMonth d).key ≤ (endOfMonth d).key := by
  have h := daysInMonth_pos d.year d.month
  unfold DateTime.key startOfMonth endOfMonth msPerDay endOfDayMs
  dsimp only
  omega

theorem subMonths_one_year (now : DateTime) (h1 : 1 ≤ now.month) (h2 : now.month ≤ 12) :
    (subMonths now 1).year = if now.month = 1 then now.year - 1 else now.year := by
  simp only [subMonths]
  split <;> omega

theorem subMonths_one_month (now : DateTime) (h1 : 1 ≤ now.month) (h2 : now.month ≤ 12) :
    (subMonths now 1).month = if now.month = 1 then 12 else now.month - 1 := by
  simp only [subMonths]
  split <;> omega

theorem sorted_filteredTransactions (txs : List Tx) (tr df : String)
    (lookup : String → Option String) (now : DateTime) :
    (filteredTransactions txs tr df lookup now).Sorted dateGE := by
  unfold filteredTransactions
  split
  · exact List.Pairwise.sublist (List.filter_sublist _) (List.sorted_insertionSort dateGE _)
  · exact List.sorted_insertionSort dateGE _

/-! ## Claims -/

/-- C1 counterexample: a whitespace-only `departmentName` (" ") is non-empty
before trimming but empty after trimming, so the claim requires falling back
to the category lookup (here "Sales"); the code's `||` test is on the
untrimmed string, which is truthy, so " " itself is returned. -/
theorem dept_resolution_trim_cex :
    txBlankDept.departmentName = some " " ∧ jsTrim " " = "" ∧
    lookSales txBlankDept.category = some "Sales" ∧
    effDept txBlankDept lookSales = some " " ∧
    effDept txBlankDept lookSales ≠ lookSales txBlankDept.category :=
  ⟨rfl, by decide, rfl, rfl, by decide⟩

/-- C1 (amended): the resolution precedence is decided by untrimmed
non-emptiness — if `departmentName` is present and non-empty it is returned
verbatim regardless of the lookup (a whitespace-only override wins); only an
absent or empty-string override falls back to `lookup(category)`, with
absence propagating as "no department". -/
theorem dept_resolution_precedence (tx : Tx) (lookup : String → Option String) :
    (∀ s, tx.departmentName = some s → s ≠ "" → effDept tx lookup = some s) ∧
    ((tx.departmentName = none ∨ tx.departmentName = some "") →
      effDept tx lookup = lookup tx.category) := by
  constructor
  · intro s hs hne
    simp [effDept, jsOrOpt, hs, hne]
  · rintro (h | h) <;> simp [effDept, jsOrOpt, h]

/-- Witness for `dept_resolution_precedence` at concrete inputs: a "Sales"
override wins over an absent lookup, and an absent override defers to the
lookup. -/
theorem dept_resolution_precedence_witness :
    effDept txSalesDept lookNone = some "Sales" ∧
    effDept txNoDept lookSales = lookSales txNoDept.category :=
  ⟨(dept_resolution_precedence txSalesDept lookNone).1 "Sales" rfl (by decide),
   (dept_resolution_precedence txNoDept lookSales).2 (Or.inl rfl)⟩

/-- C2 (code_bug evidence): `result.sort(...)` at line 81 sorts its array in
place, and under time range 'all' (or any unrecognized token) `result` is an
alias of the caller's `transactions` array, so the input collection is
reordered by the call: [txEarly, txLate] becomes [txLate, txEarly].  Under a
bounded range the input is untouched because line 78's `filter` produced a
fresh array. -/
theorem filter_mutates_input_under_all :
    inputAfterFilter [txEarly, txLate] "all" now0 = [txLate, txEarly] ∧
    [txLate, txEarly] ≠ [txEarly, txLate] ∧
    inputAfterFilter [txEarly, txLate] "thisMonth" now0 = [txEarly, txLate] :=
  ⟨by decide, by decide, rfl⟩

/-- C3 counterexample: start an edit, set the cascade flag, commit, then
start a new edit; the new session begins with `applyToCategory = true`,
where the claim requires false — neither the opening click handler
(line 237) nor the commit handler (lines 223–232) resets the flag; only
cancel (line 233) does. -/
theorem startEdit_flag_cex :
    (startEdit
        (commit (toggleApplyToCategory (startEdit initialEditorState txNoDept lookNone) true)
            txNoDept catNameTravel).1
        txNoDept lookNone).applyToCategory = true := rfl

/-- C3 (amended): `startEdit` puts the editor in Editing for the transaction
with the draft initialized to its current effective department (empty string
when absent), but leaves `applyToCategory` at its previous value; the flag
is false initially and is reset to false only by `cancel` (commit preserves
it), so an edit begun after a commit made with the flag true starts with the
flag still true. -/
theorem startEdit_transition (s : EditorState) (tx : Tx)
    (lookup : String → Option String) :
    startEdit s tx lookup = ⟨some tx.id, effDeptStr tx lookup, s.applyToCategory⟩ ∧
    initialEditorState.applyToCategory = false ∧
    (∀ s', (cancel s').1.applyToCategory = false) ∧
    (∀ s' tx' g, (commit s' tx' g).1.applyToCategory = s'.applyToCategory) :=
  ⟨rfl, rfl, fun _ => rfl, fun _ _ _ => rfl⟩

/-- C4 (confirmed): commit always issues the transaction update carrying the
trimmed draft (cleared to `none` when the draft trims to empty); it issues a
category update iff the cascade flag is true, keyed by the transaction's
category id with the category's existing name passed through; commit returns
to Idle, and cancel issues no collaborator call and returns to Idle. -/
theorem commit_cancel_effects (s : EditorState) (tx : Tx)
    (getName : String → String) :
    (Call.updateTransaction tx.id (trimOrNone s.editingDept) ∈ (commit s tx getName).2) ∧
    (∀ i d, Call.updateTransaction i d ∈ (commit s tx getName).2 →
      i = tx.id ∧ d = trimOrNone s.editingDept) ∧
    ((∃ c n d, Call.updateCategory c n d ∈ (commit s tx getName).2) ↔
      s.applyToCategory = true) ∧
    (s.applyToCategory = true →
      Call.updateCategory tx.category (getName tx.category) (trimOrNone s.editingDept)
        ∈ (commit s tx getName).2) ∧
    (jsTrim s.editingDept = "" → trimOrNone s.editingDept = none) ∧
    (jsTrim s.editingDept ≠ "" → trimOrNone s.editingDept = some (jsTrim s.editingDept)) ∧
    (commit s tx getName).1.editingId = none ∧
    (cancel s).2 = [] ∧
    (cancel s).1.editingId = none := by
  cases hs : s.applyToCategory <;>
    simp [commit, cancel, trimOrNone, hs]

/-- Witness for `commit_cancel_effects`: committing the draft "Sales" with
the cascade flag set issues the category update for the "travel" category
keeping its name "Travel". -/
theorem commit_cancel_effects_witness :
    Call.updateCategory "travel" "Travel" (some "Sales")
      ∈ (commit sEdit txNoDept catNameTravel).2 := by
  simpa using (commit_cancel_effects sEdit txNoDept catNameTravel).2.2.2.1 rfl

/-- C5 (confirmed): for every instant `now` (with calendar-valid month),
`thisMonth` resolves to [startOfMonth(now), endOfMonth(now)], `lastMonth` to
the full span of the calendar month before `now`'s month, `last3Months` to
[startOfMonth(now minus 2 months), endOfMonth(now)], `last6Months` to
[startOfMonth(now minus 5 months), endOfMonth(now)], `thisYear` to
[startOfYear(now), endOfYear(now)], and `all` as well as any unrecognized
token to unbounded, under which every transaction passes the time filter. -/
theorem time_range_resolution (now : DateTime) (h1 : 1 ≤ now.month)
    (h2 : now.month ≤ 12) :
    resolveRange "thisMonth" now = some (startOfMonth now, endOfMonth now) ∧
    resolveRange "lastMonth" now =
      some (⟨(if now.month = 1 then now.year - 1 else now.year),
             (if now.month = 1 then 12 else now.month - 1), 1, 0⟩,
            ⟨(if now.month = 1 then now.year - 1 else now.year),
             (if now.month = 1 then 12 else now.month - 1),
             daysInMonth (if now.month = 1 then now.year - 1 else now.year)
               (if now.month = 1 then 12 else now.month - 1), endOfDayMs⟩) ∧
    resolveRange "last3Months" now = some (startOfMonth (subMonths now 2), endOfMonth now) ∧
    resolveRange "last6Months" now = some (startOfMonth (subMonths now 5), endOfMonth now) ∧
    resolveRange "thisYear" now = some (startOfYear now, endOfYear now) ∧
    resolveRange "all" now = none ∧
    (∀ tok, tok ∉ (["thisMonth", "lastMonth", "last3Months", "last6Months",
        "thisYear"] : List String) → resolveRange tok now = none) ∧
    (∀ tok txs (lookup : String → Option String) (t : Tx),
      resolveRange tok now = none →
        timePass (resolveRange tok now) t = true ∧
        (t ∈ txs → t ∈ filteredTransactions txs tok "all" lookup now)) := by
  refine ⟨rfl, ?_, rfl, rfl, rfl, rfl, ?_, ?_⟩
  · have hy := subMonths_one_year now h1 h2
    have hm := subMonths_one_month now h1 h2
    have hrw : resolveRange "lastMonth" now =
        some (startOfMonth (subMonths now 1), endOfMonth (subMonths now 1)) := rfl
    rw [hrw]
    simp only [startOfMonth, endOfMonth, hy, hm]
  · intro tok htok
    simp only [List.mem_cons, List.not_mem_nil, or_false, not_or] at htok
    obtain ⟨n1, n2, n3, n4, n5⟩ := htok
    simp [resolveRange, n1, n2, n3, n4, n5]
  · intro tok txs lookup t hnone
    constructor
    · rw [hnone]
      rfl
    · intro ht
      rw [mem_filteredTransactions_iff]
      refine ⟨ht, ?_, fun hc => absurd rfl hc.2⟩
      rw [hnone]
      rfl

/-- Witness for `time_range_resolution`: at 2025-03-15 the `lastMonth` token
resolves to the full span of February 2025. -/
theorem time_range_resolution_witness :
    resolveRange "lastMonth" ⟨2025, 3, 15, 0⟩ =
      some (⟨2025, 2, 1, 0⟩, ⟨2025, 2, 28, endOfDayMs⟩) := by
  have h := (time_range_resolution ⟨2025, 3, 15, 0⟩ (by decide) (by decide)).2.1
  simpa [daysInMonth, isLeapYear] using h

/-- C6 (confirmed): with department filter "all" the result contains exactly
the input transactions whose date lies within the resolved interval with
inclusive boundaries (in particular a transaction dated exactly
startOfMonth(now) is included under `thisMonth`), the result is sorted by
date descending, and with time range "all" the result is a permutation of
the input — sorting is the only transformation. -/
theorem time_filter_membership_order (txs : List Tx) (tr : String)
    (lookup : String → Option String) (now : DateTime) :
    (∀ t, t ∈ filteredTransactions txs tr "all" lookup now ↔
      t ∈ txs ∧ timePass (resolveRange tr now) t = true) ∧
    (∀ t, t ∈ txs → t.date = startOfMonth now →
      t ∈ filteredTransactions txs "thisMonth" "all" lookup now) ∧
    (filteredTransactions txs tr "all" lookup now).Sorted dateGE ∧
    (tr = "all" → (filteredTransactions txs tr "all" lookup now).Perm txs) := by
  refine ⟨?_, ?_, sorted_filteredTransactions txs tr "all" lookup now, ?_⟩
  · intro t
    rw [mem_filteredTransactions_iff]
    constructor
    · rintro ⟨ha, hb, _⟩
      exact ⟨ha, hb⟩
    · rintro ⟨ha, hb⟩
      exact ⟨ha, hb, fun hc => absurd rfl hc.2⟩
  · intro t ht hd
    rw [mem_filteredTransactions_iff]
    refine ⟨ht, ?_, fun hc => absurd rfl hc.2⟩
    have hrw : resolveRange "thisMonth" now = some (startOfMonth now, endOfMonth now) := rfl
    rw [hrw]
    show (decide ((startOfMonth now).key ≤ t.date.key) &&
      decide (t.date.key ≤ (endOfMonth now).key)) = true
    simp only [Bool.and_eq_true, decide_eq_true_eq]
    rw [hd]
    exact ⟨le_refl _, key_startOfMonth_le_endOfMonth now⟩
  · rintro rfl
    have hrw : filteredTransactions txs "all" "all" lookup now = sortedTx txs := rfl
    rw [hrw]
    exact List.perm_insertionSort dateGE txs

/-- Witness for `time_filter_membership_order`: a transaction dated exactly at
the start of the current month is retained under `thisMonth`. -/
theorem time_filter_membership_order_witness :
    txAtStart ∈ filteredTransactions [txAtStart] "thisMonth" "all" lookNone now0 :=
  (time_filter_membership_order [txAtStart] "thisMonth" lookNone now0).2.1 txAtStart
    (by decide) rfl

/-- C7 (confirmed): for every collection, time-range token, department filter
and fixed `now`, running the pipeline a second time on its own output yields
the identical sequence: all surviving elements still pass both predicates,
and a stable sort of an already-sorted list is the identity. -/
theorem filter_idempotent (txs : List Tx) (tr df : String)
    (lookup : String → Option String) (now : DateTime) :
    filteredTransactions (filteredTransactions txs tr df lookup now) tr df lookup now =
      filteredTransactions txs tr df lookup now := by
  set r1 := filteredTransactions txs tr df lookup now with hr1
  have htime : ∀ t ∈ r1, timePass (resolveRange tr now) t = true := by
    intro t ht
    rw [hr1] at ht
    exact (mem_filteredTransactions_iff.mp ht).2.1
  have hsorted : r1.Sorted dateGE := by
    rw [hr1]
    exact sorted_filteredTransactions txs tr df lookup now
  have hTF : timeFiltered r1 tr now = r1 := by
    unfold timeFiltered
    cases hr : resolveRange tr now with
    | none => rfl
    | some i =>
      apply List.filter_eq_self.mpr
      intro a ha
      have h := htime a ha
      rw [hr] at h
      exact h
  have hsort : sortedTx r1 = r1 := hsorted.insertionSort_eq
  by_cases hdf : df ≠ "" ∧ df ≠ "all"
  · have hrw : filteredTransactions r1 tr df lookup now =
        (sortedTx (timeFiltered r1 tr now)).filter (deptPass lookup df) := by
      unfold filteredTransactions
      rw [if_pos hdf]
    rw [hrw, hTF, hsort]
    apply List.filter_eq_self.mpr
    intro a ha
    rw [hr1] at ha
    exact (mem_filteredTransactions_iff.mp ha).2.2 hdf
  · have hrw : filteredTransactions r1 tr df lookup now =
        sortedTx (timeFiltered r1 tr now) := by
      unfold filteredTransactions
      rw [if_neg hdf]
    rw [hrw, hTF, hsort]

theorem totals_concat (ts : List Tx) (t : Tx) :
    totals (ts ++ [t]) = addTx (totals ts) t := by
  simp [totals, List.foldl_append]

theorem any_currency_iff (m : List (String × Bucket)) (tc : String) :
    m.any (fun p => p.1 == tc) = true ↔ tc ∈ m.map Prod.fst := by
  simp [List.any_eq_true, List.mem_map, beq_iff_eq]

theorem lookup_isSome_iff_mem_keys (m : List (String × Bucket)) (c : String) :
    (m.lookup c).isSome = true ↔ c ∈ m.map Prod.fst := by
  induction m with
  | nil => simp [List.lookup]
  | cons p m ih =>
    obtain ⟨k, b⟩ := p
    by_cases h : c = k
    · subst h
      simp [List.lookup_cons]
    · have hbeq : (c == k) = false := beq_eq_false_iff_ne.mpr h
      simp [List.lookup_cons, hbeq, ih, h]

theorem lookup_eq_none_of_not_mem_keys (m : List (String × Bucket)) (c : String)
    (h : c ∉ m.map Prod.fst) : m.lookup c = none := by
  induction m with
  | nil => rfl
  | cons p m ih =>
    obtain ⟨k, b⟩ := p
    simp only [List.map_cons, List.mem_cons, not_or] at h
    have hbeq : (c == k) = false := beq_eq_false_iff_ne.mpr h.1
    simp [List.lookup_cons, hbeq, ih h.2]

theorem lookup_map_update (m : List (String × Bucket)) (tc c : String) (t : Tx) :
    (m.map fun p => if p.1 = tc then (p.1, bump p.2 t) else p).lookup c =
      if c = tc then (m.lookup c).map (fun b => bump b t) else m.lookup c := by
  induction m with
  | nil =>
    simp only [List.map_nil, List.lookup]
    split <;> rfl
  | cons p m ih =>
    obtain ⟨k, b⟩ := p
    simp only [List.map_cons]
    by_cases hc : c = k
    · subst hc
      by_cases hk : c = tc
      · subst hk
        simp [List.lookup_cons]
      · have hk' : ¬(c, b).1 = tc := hk
        rw [if_neg hk']
        simp [List.lookup_cons, hk]
    · have hbeq : (c == k) = false := beq_eq_false_iff_ne.mpr hc
      by_cases hk : k = tc
      · subst hk
        simp [List.lookup_cons, hbeq, ih, hc]
      · have hk' : ¬(k, b).1 = tc := hk
        rw [if_neg hk']
        simp [List.lookup_cons, hbeq, ih]

theorem lookup_append_one (m : List (String × Bucket)) (k c : String) (b : Bucket) :
    (m ++ [(k, b)]).lookup c =
      match m.lookup c with
      | some x => some x
      | none => if c = k then some b else none := by
  induction m with
  | nil =>
    by_cases h : c = k
    · subst h
      simp [List.lookup_cons, List.lookup]
    · have hbeq : (c == k) = false := beq_eq_false_iff_ne.mpr h
      simp [List.lookup_cons, List.lookup, hbeq, h]
  | cons p m ih =>
    obtain ⟨k', b'⟩ := p
    by_cases h : c = k'
    · subst h
      simp [List.lookup_cons]
    · have hbeq : (c == k') = false := beq_eq_false_iff_ne.mpr h
      simp [List.lookup_cons, hbeq, ih]

theorem keys_addTx (m : List (String × Bucket)) (t : Tx) :
    (addTx m t).map Prod.fst =
      if t.currency ∈ m.map Prod.fst then m.map Prod.fst
      else m.map Prod.fst ++ [t.currency] := by
  unfold addTx
  by_cases h : t.currency ∈ m.map Prod.fst
  · rw [if_pos ((any_currency_iff m t.currency).mpr h), if_pos h, List.map_map]
    apply List.map_congr_left
    intro p _
    by_cases hp : p.1 = t.currency <;> simp [hp]
  · rw [if_neg fun hc => h ((any_currency_iff m t.currency).mp hc), if_neg h,
      List.map_append]
    rfl

theorem sumIncome_concat (ts : List Tx) (t : Tx) (c : String) :
    sumIncome (ts ++ [t]) c =
      sumIncome ts c +
        (if t.currency = c ∧ t.type = TxType.income then t.amount else 0) := by
  unfold sumIncome
  rw [List.filter_append, List.map_append, List.sum_append]
  congr 1
  by_cases h : t.currency = c ∧ t.type = TxType.income <;> simp [List.filter, h]

theorem sumExpense_concat (ts : List Tx) (t : Tx) (c : String) :
    sumExpense (ts ++ [t]) c =
      sumExpense ts c +
        (if t.currency = c ∧ t.type = TxType.expense then t.amount else 0) := by
  unfold sumExpense
  rw [List.filter_append, List.map_append, List.sum_append]
  congr 1
  by_cases h : t.currency = c ∧ t.type = TxType.expense <;> simp [List.filter, h]

theorem sumIncome_eq_zero_of_not_mem (ts : List Tx) (c : String)
    (h : c ∉ ts.map Tx.currency) : sumIncome ts c = 0 := by
  unfold sumIncome
  rw [List.filter_eq_nil_iff.mpr ?_]
  · rfl
  · intro a ha
    simp only [decide_eq_true_eq, not_and]
    intro hc
    exact absurd (List.mem_map.mpr ⟨a, ha, hc⟩) h

theorem sumExpense_eq_zero_of_not_mem (ts : List Tx) (c : String)
    (h : c ∉ ts.map Tx.currency) : sumExpense ts c = 0 := by
  unfold sumExpense
  rw [List.filter_eq_nil_iff.mpr ?_]
  · rfl
  · intro a ha
    simp only [decide_eq_true_eq, not_and]
    intro hc
    exact absurd (List.mem_map.mpr ⟨a, ha, hc⟩) h

theorem bump_sums (ts : List Tx) (t : Tx) (c : String) (hc : t.currency = c) :
    bump ⟨sumIncome ts c, sumExpense ts c⟩ t =
      ⟨sumIncome (ts ++ [t]) c, sumExpense (ts ++ [t]) c⟩ := by
  rw [sumIncome_concat, sumExpense_concat]
  cases ht : t.type <;> simp [bump, ht, hc]

theorem sumIncome_concat_other (ts : List Tx) (t : Tx) (c : String)
    (hc : t.currency ≠ c) : sumIncome (ts ++ [t]) c = sumIncome ts c := by
  simp [sumIncome_concat, hc]

theorem sumExpense_concat_other (ts : List Tx) (t : Tx) (c : String)
    (hc : t.currency ≠ c) : sumExpense (ts ++ [t]) c = sumExpense ts c := by
  simp [sumExpense_concat, hc]

theorem totals_lookup (ts : List Tx) :
    ∀ c, (totals ts).lookup c =
      if c ∈ ts.map Tx.currency then some ⟨sumIncome ts c, sumExpense ts c⟩
      else none := by
  induction ts using List.reverseRecOn with
  | nil =>
    intro c
    simp [totals, List.lookup]
  | append_singleton ts t ih =>
    intro c
    have hiff : ∀ c', c' ∈ (totals ts).map Prod.fst ↔ c' ∈ ts.map Tx.currency := by
      intro c'
      rw [← lookup_isSome_iff_mem_keys, ih c']
      by_cases h : c' ∈ ts.map Tx.currency <;> simp [h]
    have hmem2 : ∀ c', c' ∈ (ts ++ [t]).map Tx.currency ↔
        c' ∈ ts.map Tx.currency ∨ c' = t.currency := by
      intro c'
      simp [List.map_append]
    rw [totals_concat]
    unfold addTx
    by_cases hmem : t.currency ∈ ts.map Tx.currency
    · rw [if_pos ((any_currency_iff _ _).mpr ((hiff _).mpr hmem)), lookup_map_update]
      by_cases hc : c = t.currency
      · rw [if_pos hc, ih c, if_pos (by rw [hc]; exact hmem),
          if_pos ((hmem2 c).mpr (Or.inr hc))]
        simp only [Option.map_some']
        rw [bump_sums ts t c hc.symm]
      · rw [if_neg hc, ih c]
        by_cases hcm : c ∈ ts.map Tx.currency
        · rw [if_pos hcm, if_pos ((hmem2 c).mpr (Or.inl hcm)),
            sumIncome_concat_other ts t c (fun h => hc h.symm),
            sumExpense_concat_other ts t c (fun h => hc h.symm)]
        · have hnot : c ∉ (ts ++ [t]).map Tx.currency := by
            rw [hmem2 c]
            rintro (h' | h')
            exacts [hcm h', hc h']
          rw [if_neg hcm, if_neg hnot]
    · rw [if_neg fun ha =>
        hmem ((hiff _).mp ((any_currency_iff _ _).mp ha)), lookup_append_one]
      by_cases hc : c = t.currency
      · have hl : (totals ts).lookup c = none := by
          rw [ih c, if_neg (by rw [hc]; exact hmem)]
        rw [hl]
        dsimp only
        rw [if_pos hc, if_pos ((hmem2 c).mpr (Or.inr hc))]
        have h0i := sumIncome_eq_zero_of_not_mem ts c (by rw [hc]; exact hmem)
        have h0e := sumExpense_eq_zero_of_not_mem ts c (by rw [hc]; exact hmem)
        rw [← bump_sums ts t c hc.symm, h0i, h0e]
      · by_cases hcm : c ∈ ts.map Tx.currency
        · have hl : (totals ts).lookup c =
              some ⟨sumIncome ts c, sumExpense ts c⟩ := by
            rw [ih c, if_pos hcm]
          rw [hl]
          dsimp only
          rw [if_pos ((hmem2 c).mpr (Or.inl hcm)),
            sumIncome_concat_other ts t c (fun h => hc h.symm),
            sumExpense_concat_other ts t c (fun h => hc h.symm)]
        · have hl : (totals ts).lookup c = none := by
            rw [ih c, if_neg hcm]
          rw [hl]
          dsimp only
          have hnot : c ∉ (ts ++ [t]).map Tx.currency := by
            rw [hmem2 c]
            rintro (h' | h')
            exacts [hcm h', hc h']
          rw [if_neg hc, if_neg hnot]

theorem totals_keys (ts : List Tx) :
    (totals ts).map Prod.fst = firstOccurrences (ts.map Tx.currency) := by
  induction ts using List.reverseRecOn with
  | nil => rfl
  | append_singleton ts t ih =>
    rw [totals_concat, keys_addTx, ih, List.map_append]
    unfold firstOccurrences
    rw [List.foldl_append]
    rfl

theorem mem_foldl_firstOcc (l : List String) :
    ∀ (acc : List String) (c : String),
      c ∈ l.foldl (fun acc c => if c ∈ acc then acc else acc ++ [c]) acc ↔
        c ∈ acc ∨ c ∈ l := by
  induction l with
  | nil => simp
  | cons a l ih =>
    intro acc c
    rw [List.foldl_cons, ih]
    by_cases ha : a ∈ acc
    · rw [if_pos ha]
      simp only [List.mem_cons]
      constructor
      · rintro (h | h)
        · exact Or.inl h
        · exact Or.inr (Or.inr h)
      · rintro (h | h | h)
        · exact Or.inl h
        · exact Or.inl (h ▸ ha)
        · exact Or.inr h
    · rw [if_neg ha]
      simp only [List.mem_append, List.mem_singleton, List.mem_cons]
      tauto

theorem mem_firstOccurrences {l : List String} {c : String} :
    c ∈ firstOccurrences l ↔ c ∈ l := by
  unfold firstOccurrences
  rw [mem_foldl_firstOcc]
  simp

/-- C8 (confirmed): for every transaction list the aggregate maps each
currency occurring in the list to a bucket summing that currency's income
and expense amounts separately, maps absent currencies to nothing, lists
buckets in order of first occurrence, and appending a transaction in a new
currency appends one fresh independent bucket leaving existing buckets
unchanged. -/
theorem aggregator_correct (ts : List Tx) :
    (∀ c, (totals ts).lookup c =
      if c ∈ ts.map Tx.currency then some ⟨sumIncome ts c, sumExpense ts c⟩
      else none) ∧
    ((totals ts).map Prod.fst = firstOccurrences (ts.map Tx.currency)) ∧
    (∀ t, t.currency ∉ ts.map Tx.currency →
      totals (ts ++ [t]) = totals ts ++ [(t.currency, bump ⟨0, 0⟩ t)]) := by
  refine ⟨totals_lookup ts, totals_keys ts, ?_⟩
  intro t ht
  have hkey : ¬(totals ts).any (fun p => p.1 == t.currency) = true := by
    rw [any_currency_iff, totals_keys, mem_firstOccurrences]
    exact ht
  rw [totals_concat]
  unfold addTx
  rw [if_neg hkey]

/-- Witness for `aggregator_correct`: appending a USD income to the spec's
two-PLN-transaction example adds one fresh independent USD bucket, leaving
the PLN bucket untouched. -/
theorem aggregator_correct_witness :
    totals ([txPLNin, txPLNex] ++ [txUSDin]) =
      totals [txPLNin, txPLNex] ++ [("USD", bump ⟨0, 0⟩ txUSDin)] :=
  (aggregator_correct [txPLNin, txPLNex]).2.2 txUSDin (by decide)

/-- C9 counterexample: the empty string is a department-filter value
different from the sentinel "all", yet the guard
`departmentFilter && departmentFilter !== 'all'` is falsy on it, so no
department filtering happens: a transaction resolving to "Sales" is retained
although "Sales" differs from the filter value "", and a transaction with an
absent effective department would be retained too. -/
theorem dept_filter_empty_cex :
    ("" : String) ≠ "all" ∧
    txSalesDept ∈ filteredTransactions [txSalesDept] "all" "" lookNone now0 ∧
    effDept txSalesDept lookNone = some "Sales" ∧
    (some "Sales" : Option String) ≠ some "" ∧
    txNoDept ∈ filteredTransactions [txNoDept] "all" "" lookNone now0 ∧
    effDept txNoDept lookNone = none :=
  ⟨by decide, by decide, rfl, by decide, by decide, rfl⟩

/-- C9 (amended): when the department filter is non-empty and not the
sentinel "all", the pipeline retains exactly the time-passing transactions
whose resolved effective department equals the filter value by exact,
case-sensitive, untrimmed comparison; a transaction whose category reference
is dangling or whose effective department is absent is never retained under
such a filter, and every path is total so no error is raised.  (An
empty-string filter value is falsy in JS and disables department filtering
entirely.) -/
theorem dept_filter_semantics (txs : List Tx) (tr df : String)
    (lookup : String → Option String) (now : DateTime)
    (hall : df ≠ "all") (hne : df ≠ "") :
    (∀ t, t ∈ filteredTransactions txs tr df lookup now ↔
      t ∈ txs ∧ timePass (resolveRange tr now) t = true ∧
        effDept t lookup = some df) ∧
    (∀ t, effDept t lookup = none →
      t ∉ filteredTransactions txs tr df lookup now) := by
  have hdf : df ≠ "" ∧ df ≠ "all" := ⟨hne, hall⟩
  constructor
  · intro t
    rw [mem_filteredTransactions_iff]
    constructor
    · rintro ⟨h1, h2, h3⟩
      exact ⟨h1, h2, (deptPass_eq_true_iff.mp (h3 hdf)).1⟩
    · rintro ⟨h1, h2, h3⟩
      exact ⟨h1, h2, fun _ => deptPass_eq_true_iff.mpr ⟨h3, hne⟩⟩
  · intro t hnone hmem
    have h := (mem_filteredTransactions_iff.mp hmem).2.2 hdf
    rw [deptPass_eq_true_iff, hnone] at h
    exact absurd h.1 (by simp)

/-- Witness for `dept_filter_semantics`: under filter "Sales" a transaction
with the override "Sales" is retained. -/
theorem dept_filter_semantics_witness :
    txSalesDept ∈ filteredTransactions [txSalesDept] "all" "Sales" lookNone now0 :=
  ((dept_filter_semantics [txSalesDept] "all" "Sales" lookNone now0 (by decide)
      (by decide)).1 txSalesDept).mpr ⟨by decide, rfl, rfl⟩

/-- C10 counterexample: the stored effective department " " is non-empty and
carries whitespace, but its trimmed label "" does not appear among the
selectable departments (the collection step requires the trimmed label to be
truthy), so the claimed option/exclusion pair fails for it; selecting ""
would moreover disable filtering rather than exclude the transaction. -/
theorem available_depts_whitespace_cex :
    effDept txBlankDept lookNone = some " " ∧ (" " : String) ≠ "" ∧
    jsTrim " " ≠ " " ∧
    availableDepartments [txBlankDept] lookNone = [] ∧
    jsTrim " " ∉ availableDepartments [txBlankDept] lookNone :=
  ⟨rfl, by decide, by decide, by decide, by decide⟩

theorem mem_collectStep_mono (lookup : String → Option String) (acc : List String)
    (tx : Tx) (a : String) (h : a ∈ acc) : a ∈ collectStep lookup acc tx := by
  unfold collectStep
  cases effDept tx lookup with
  | none => exact h
  | some d =>
    dsimp only
    by_cases h1 : d ≠ "" ∧ jsTrim d ≠ ""
    · rw [if_pos h1]
      by_cases h2 : jsTrim d ∈ acc
      · rw [if_pos h2]
        exact h
      · rw [if_neg h2]
        exact List.mem_append_left _ h
    · rw [if_neg h1]
      exact h

theorem mem_foldl_collect_mono (lookup : String → Option String) (l : List Tx) :
    ∀ (acc : List String) (a : String), a ∈ acc →
      a ∈ l.foldl (collectStep lookup) acc := by
  induction l with
  | nil =>
    intro acc a h
    exact h
  | cons x l ih =>
    intro acc a h
    exact ih _ _ (mem_collectStep_mono lookup acc x a h)

theorem mem_foldl_collect (lookup : String → Option String) (txs : List Tx)
    (tx : Tx) (d : String) (heff : effDept tx lookup = some d) (hd : d ≠ "")
    (ht : jsTrim d ≠ "") :
    ∀ acc, tx ∈ txs → jsTrim d ∈ txs.foldl (collectStep lookup) acc := by
  induction txs with
  | nil =>
    intro acc h
    cases h
  | cons x l ih =>
    intro acc hmem
    rw [List.foldl_cons]
    rcases List.mem_cons.mp hmem with rfl | hmem'
    · apply mem_foldl_collect_mono
      unfold collectStep
      rw [heff]
      dsimp only
      rw [if_pos ⟨hd, ht⟩]
      by_cases h2 : jsTrim d ∈ acc
      · rw [if_pos h2]
        exact h2
      · rw [if_neg h2]
        exact List.mem_append_right _ (List.mem_singleton_self _)
    · exact ih _ hmem'

/-- C10 (amended): for any transaction whose stored effective department is
non-blank (non-empty after trimming, and distinct from the sentinel "all")
but carries leading or trailing whitespace, the trimmed label appears among
the selectable departments while selecting that label excludes the
transaction itself, because the filter compares the untrimmed label. -/
theorem available_depts_trim_mismatch (txs : List Tx) (tr : String)
    (lookup : String → Option String) (now : DateTime) (tx : Tx) (d : String)
    (hmem : tx ∈ txs) (heff : effDept tx lookup = some d)
    (hne : jsTrim d ≠ "") (hdiff : jsTrim d ≠ d) (hall : jsTrim d ≠ "all") :
    jsTrim d ∈ availableDepartments txs lookup ∧
    tx ∉ filteredTransactions txs tr (jsTrim d) lookup now := by
  constructor
  · unfold availableDepartments
    rw [List.mem_insertionSort]
    exact mem_foldl_collect lookup txs tx d heff
      (fun h => hne (by rw [h]; rfl)) hne [] hmem
  · intro hmemf
    have h := (mem_filteredTransactions_iff.mp hmemf).2.2 ⟨hne, hall⟩
    rw [deptPass_eq_true_iff] at h
    have hsome : some d = some (jsTrim d) := heff.symm.trans h.1
    exact hdiff (Option.some_inj.mp hsome).symm

/-- Witness for `available_depts_trim_mismatch`: the padded override
" Sales " yields the selectable label "Sales", whose selection excludes the
very transaction carrying the padded override. -/
theorem available_depts_trim_mismatch_witness :
    jsTrim " Sales " ∈ availableDepartments [txPadDept] lookNone ∧
    txPadDept ∉
      filteredTransactions [txPadDept] "all" (jsTrim " Sales ") lookNone now0 :=
  available_depts_trim_mismatch [txPadDept] "all" lookNone now0 txPadDept
    " Sales " (by decide) rfl (by decide) (by decide) (by decide)

end StatsTable
